import Mathlib

/-!
Verification of the `stats` package: a metrics interface with a
key-prefixing decorator, a multi-ender, a hook-based test double and
nil-tolerant helper functions.

The embedding is trace-based: every operation of a client returns the
list of observable backend effects it performs, drawn from a type `ε` of
events. A timer handle (a Go value of the anonymous interface type with the
single method `End`)
is modelled by `EnderI ε`: `none` is the nil interface value, and a
non-nil handle `Ender ε` carries the effect trace of its `End` call
(`Option`-valued, `none` standing for a panic inside `End`, e.g. when a
nil element of a `multiEnder` is finished).
-/

set_option autoImplicit false

variable {ε : Type}

/-- A non-nil timer handle: `End` either panics (`none`) or performs the
recorded effect trace. -/
structure Ender (ε : Type) where
  End : Option (List ε)

/-- A Go value of the single-method interface type returned by
`BumpTime`: either the nil interface (`none`) or a concrete handle. -/
abbrev EnderI (ε : Type) := Option (Ender ε)

/-- Calling `End()` through an interface value: on the nil interface the
call panics (`none`). -/
def endCall : EnderI ε → Option (List ε)
  | none => none
  | some e => e.End

/-- Model of `var NoOpEnd = noOpEnd` from the source: the `End` method
of the empty struct `noOpEnd` performs nothing and never fails. -/
def NoOpEnd : Ender ε := ⟨some []⟩

/-- The `Client` interface: each bump operation returns the trace of
backend effects it performs; `BumpTime` additionally returns a timer
handle. -/
structure Client (ε : Type) where
  BumpAvg : String → Float → List String → List ε
  BumpSum : String → Float → List String → List ε
  BumpHistogram : String → Float → List String → List ε
  BumpTime : String → List String → List ε × EnderI ε

/-- Model of `type multiEnder`: a slice of timer-handle interface
values. -/
abbrev multiEnder (ε : Type) := List (EnderI ε)

/-- Model of the method `End` of `multiEnder`: call `End` on each element in order.
The trace is the concatenation of the element traces; a nil element or a
panicking element makes the whole call panic (`none`). -/
def multiEnder.End : multiEnder ε → Option (List ε)
  | [] => some []
  | e :: rest => do
      let t ← endCall e
      let ts ← multiEnder.End rest
      pure (t ++ ts)

/-- A `multiEnder` used as a timer-handle interface value (the slice
itself is a non-nil interface value, even when empty). -/
def multiEnder.toEnder (m : multiEnder ε) : Ender ε := ⟨multiEnder.End m⟩

/-- Model of `type prefixClient`: the struct holding the prefixes and
the wrapped client. -/
structure prefixClient (ε : Type) where
  Prefixes : List String
  Client : Client ε

/-- Model of the method `BumpAvg` of `prefixClient`: loop over `p.Prefixes`, calling
`p.Client.BumpAvg(prefix+key, val, tags...)` for each. The method body
writes no field of `p`, so the receiver is returned unchanged. -/
def prefixClient.BumpAvgM (p : prefixClient ε) (key : String) (val : Float)
    (tags : List String) : List ε × prefixClient ε :=
  (p.Prefixes.foldl (fun acc pre => acc ++ p.Client.BumpAvg (pre ++ key) val tags) [], p)

/-- Model of the method `BumpSum` of `prefixClient`: loop over `p.Prefixes`, calling
`p.Client.BumpSum(prefix+key, val, tags...)` for each. -/
def prefixClient.BumpSumM (p : prefixClient ε) (key : String) (val : Float)
    (tags : List String) : List ε × prefixClient ε :=
  (p.Prefixes.foldl (fun acc pre => acc ++ p.Client.BumpSum (pre ++ key) val tags) [], p)

/-- Model of the method `BumpHistogram` of `prefixClient`: loop over `p.Prefixes`,
calling `p.Client.BumpHistogram(prefix+key, val, tags...)` for each. -/
def prefixClient.BumpHistogramM (p : prefixClient ε) (key : String) (val : Float)
    (tags : List String) : List ε × prefixClient ε :=
  (p.Prefixes.foldl (fun acc pre => acc ++ p.Client.BumpHistogram (pre ++ key) val tags) [], p)

/-- Model of the method `BumpTime` of `prefixClient`: start with the empty `multiEnder`
`m`, loop over `p.Prefixes` appending `p.Client.BumpTime(prefix+key,
tags...)` to `m`, and return `m` (a non-nil interface value). -/
def prefixClient.BumpTimeM (p : prefixClient ε) (key : String)
    (tags : List String) : (List ε × EnderI ε) × prefixClient ε :=
  let r := p.Prefixes.foldl
    (fun (acc : List ε × multiEnder ε) pre =>
      let rr := p.Client.BumpTime (pre ++ key) tags
      (acc.1 ++ rr.1, acc.2 ++ [rr.2]))
    ([], [])
  ((r.1, some (multiEnder.toEnder r.2)), p)

/-- Model of the constructor `PrefixClient(prefixes, client)`: the
`prefixClient` value viewed through the `Client` interface. -/
def PrefixClient (prefixes : List String) (client : Client ε) : Client ε :=
  let p : prefixClient ε := ⟨prefixes, client⟩
  { BumpAvg := fun key val tags => (p.BumpAvgM key val tags).1
    BumpSum := fun key val tags => (p.BumpSumM key val tags).1
    BumpHistogram := fun key val tags => (p.BumpHistogramM key val tags).1
    BumpTime := fun key tags => (p.BumpTimeM key tags).1 }

/-- Model of `type HookClient`: one optional hook per operation. -/
structure HookClient (ε : Type) where
  BumpAvgHook : Option (String → Float → List String → List ε)
  BumpSumHook : Option (String → Float → List String → List ε)
  BumpHistogramHook : Option (String → Float → List String → List ε)
  BumpTimeHook : Option (String → List String → List ε × EnderI ε)

/-- Model of the method `BumpAvg` of `HookClient`: call `BumpAvgHook` if defined. -/
def HookClient.BumpAvg (c : HookClient ε) (key : String) (val : Float)
    (tags : List String) : List ε :=
  match c.BumpAvgHook with
  | some h => h key val tags
  | none => []

/-- Model of the method `BumpSum` of `HookClient`: call `BumpSumHook` if defined. -/
def HookClient.BumpSum (c : HookClient ε) (key : String) (val : Float)
    (tags : List String) : List ε :=
  match c.BumpSumHook with
  | some h => h key val tags
  | none => []

/-- Model of the method `BumpHistogram` of `HookClient`: call
`BumpHistogramHook` if defined. -/
def HookClient.BumpHistogram (c : HookClient ε) (key : String) (val : Float)
    (tags : List String) : List ε :=
  match c.BumpHistogramHook with
  | some h => h key val tags
  | none => []

/-- Model of the method `BumpTime` of `HookClient`: call `BumpTimeHook`
if defined, else return `NoOpEnd`. -/
def HookClient.BumpTime (c : HookClient ε) (key : String)
    (tags : List String) : List ε × EnderI ε :=
  match c.BumpTimeHook with
  | some h => h key tags
  | none => ([], some NoOpEnd)

/-- A `*HookClient` used as a `Client` interface value. -/
def HookClient.toClient (c : HookClient ε) : Client ε :=
  { BumpAvg := c.BumpAvg
    BumpSum := c.BumpSum
    BumpHistogram := c.BumpHistogram
    BumpTime := c.BumpTime }

/-- Model of the free function `BumpAvg`: forward if `c` is not nil. An
optional (possibly nil) `Client` interface value is `Option (Client ε)`. -/
def BumpAvg (c : Option (Client ε)) (key : String) (val : Float)
    (tags : List String) : List ε :=
  match c with
  | some c => c.BumpAvg key val tags
  | none => []

/-- Model of the free function `BumpSum`: forward if `c` is not nil. -/
def BumpSum (c : Option (Client ε)) (key : String) (val : Float)
    (tags : List String) : List ε :=
  match c with
  | some c => c.BumpSum key val tags
  | none => []

/-- Model of the free function `BumpHistogram`: forward if `c` is not nil. -/
def BumpHistogram (c : Option (Client ε)) (key : String) (val : Float)
    (tags : List String) : List ε :=
  match c with
  | some c => c.BumpHistogram key val tags
  | none => []

/-- Model of the free function `BumpTime`: forward if `c` is not nil,
else return `NoOpEnd`. -/
def BumpTime (c : Option (Client ε)) (key : String)
    (tags : List String) : List ε × EnderI ε :=
  match c with
  | some c => c.BumpTime key tags
  | none => ([], some NoOpEnd)

/-- Observable backend events, used to instantiate `ε` when observing
exactly which calls a decorator forwards. -/
inductive Event : Type where
  | avg (key : String) (val : Float) (tags : List String)
  | sum (key : String) (val : Float) (tags : List String)
  | hist (key : String) (val : Float) (tags : List String)
  | time (key : String) (tags : List String)
  | ended (key : String)

/-- A backend that records each invocation as a single event, and whose
timer handles record which timer was finished: the observer used to
state which calls reach the wrapped client. -/
def recordClient : Client Event :=
  { BumpAvg := fun key val tags => [Event.avg key val tags]
    BumpSum := fun key val tags => [Event.sum key val tags]
    BumpHistogram := fun key val tags => [Event.hist key val tags]
    BumpTime := fun key tags =>
      ([Event.time key tags], some ⟨some [Event.ended key]⟩) }

/-- The metric key carried by an event. -/
def Event.key : Event → String
  | .avg k _ _ => k
  | .sum k _ _ => k
  | .hist k _ _ => k
  | .time k _ => k
  | .ended k => k

/-- A hook client with only the avg and time hooks set, each recording
its arguments; exercises the per-hook contract of `HookClient`. -/
def sampleHooks : HookClient Event :=
  { BumpAvgHook := some fun key val tags => [Event.avg key val tags]
    BumpSumHook := none
    BumpHistogramHook := none
    BumpTimeHook := some fun key tags =>
      ([Event.time key tags], some ⟨some [Event.ended key]⟩) }

/-- A hook client whose time hook returns the nil interface value as its
timer handle. -/
def nilTimeHooks : HookClient Event :=
  { BumpAvgHook := none
    BumpSumHook := none
    BumpHistogramHook := none
    BumpTimeHook := some fun key tags => ([Event.time key tags], none) }

/-! ### Characterisation lemmas for the fold loops -/

/-- Folding an effect-accumulating loop equals the concatenation of the
per-iteration traces, in iteration order. -/
theorem foldl_append_eq_flatten {α : Type} (f : α → List ε) :
    ∀ (P : List α) (acc : List ε),
      P.foldl (fun a x => a ++ f x) acc = acc ++ (P.map f).flatten := by
  intro P
  induction P with
  | nil => intro acc; simp
  | cons x xs ih => intro acc; simp [ih]

/-- Folding the timer loop accumulates the traces in order in the first
component and the returned handles in order in the second. -/
theorem foldl_pair_eq_map {α : Type} (f : α → List ε × EnderI ε) :
    ∀ (P : List α) (acc : List ε × multiEnder ε),
      P.foldl (fun a x => (a.1 ++ (f x).1, a.2 ++ [(f x).2])) acc
        = (acc.1 ++ (P.map fun x => (f x).1).flatten, acc.2 ++ P.map fun x => (f x).2) := by
  intro P
  induction P with
  | nil => intro acc; simp
  | cons x xs ih => intro acc; simp [ih]

/-- Joining a list of singleton lists is the list of their elements. -/
theorem flatten_map_singleton {α β : Type} (g : α → β) :
    ∀ l : List α, (l.map fun x => [g x]).flatten = l.map g := by
  intro l
  induction l with
  | nil => rfl
  | cons x xs ih => simp [ih]

/-- The `BumpAvg` loop of the prefixing decorator, in closed form. -/
theorem PrefixClient_BumpAvg (P : List String) (c : Client ε) (k : String)
    (v : Float) (t : List String) :
    (PrefixClient P c).BumpAvg k v t = (P.map fun pre => c.BumpAvg (pre ++ k) v t).flatten := by
  simp [PrefixClient, prefixClient.BumpAvgM]
  exact foldl_append_eq_flatten (fun pre => c.BumpAvg (pre ++ k) v t) P [] |>.trans (by simp)

/-- The `BumpSum` loop of the prefixing decorator, in closed form. -/
theorem PrefixClient_BumpSum (P : List String) (c : Client ε) (k : String)
    (v : Float) (t : List String) :
    (PrefixClient P c).BumpSum k v t = (P.map fun pre => c.BumpSum (pre ++ k) v t).flatten := by
  simp [PrefixClient, prefixClient.BumpSumM]
  exact foldl_append_eq_flatten (fun pre => c.BumpSum (pre ++ k) v t) P [] |>.trans (by simp)

/-- The `BumpHistogram` loop of the prefixing decorator, in closed form. -/
theorem PrefixClient_BumpHistogram (P : List String) (c : Client ε) (k : String)
    (v : Float) (t : List String) :
    (PrefixClient P c).BumpHistogram k v t
      = (P.map fun pre => c.BumpHistogram (pre ++ k) v t).flatten := by
  simp [PrefixClient, prefixClient.BumpHistogramM]
  exact foldl_append_eq_flatten (fun pre => c.BumpHistogram (pre ++ k) v t) P [] |>.trans (by simp)

/-- The `BumpTime` loop of the prefixing decorator, in closed form: the
trace is the concatenation of the wrapped-call traces and the returned
handle is the `multiEnder` of the wrapped handles, in call order. -/
theorem PrefixClient_BumpTime (P : List String) (c : Client ε) (k : String)
    (t : List String) :
    (PrefixClient P c).BumpTime k t
      = ((P.map fun pre => (c.BumpTime (pre ++ k) t).1).flatten,
         some (multiEnder.toEnder (P.map fun pre => (c.BumpTime (pre ++ k) t).2))) := by
  simp [PrefixClient, prefixClient.BumpTimeM]
  rw [foldl_pair_eq_map (fun pre => c.BumpTime (pre ++ k) t) P ([], [])]
  simp

/-- Finishing a `multiEnder` of handles whose finishes yield the traces
`hs` yields their concatenation, in order, without failing. -/
theorem multiEnder_End_traces :
    ∀ hs : List (List ε),
      multiEnder.End (hs.map fun tr => some (⟨some tr⟩ : Ender ε)) = some hs.flatten := by
  intro hs
  induction hs with
  | nil => rfl
  | cons tr rest ih => simp [multiEnder.End, endCall, ih]

/-! ### The claims -/

/-- Claim C1: for every non-empty prefix list `P`, key `k`, value `v`
and tag sequence `t`, one `BumpSum` (likewise `BumpAvg` and
`BumpHistogram`) call through the prefixing decorator produces exactly
`P.length` calls of the same operation on the wrapped client, with keys
`P[0] ++ k, ..., P[P.length-1] ++ k` in that order, each call carrying
`v` and `t` unchanged. -/
theorem claim_C1_prefix_fanout (P : List String) (hP : P ≠ []) (k : String)
    (v : Float) (t : List String) :
    (PrefixClient P recordClient).BumpSum k v t
        = P.map (fun pre => Event.sum (pre ++ k) v t)
    ∧ (PrefixClient P recordClient).BumpAvg k v t
        = P.map (fun pre => Event.avg (pre ++ k) v t)
    ∧ (PrefixClient P recordClient).BumpHistogram k v t
        = P.map (fun pre => Event.hist (pre ++ k) v t)
    ∧ ((PrefixClient P recordClient).BumpSum k v t).length = P.length := by
  have hs := (PrefixClient_BumpSum P recordClient k v t).trans
    (flatten_map_singleton (fun pre => Event.sum (pre ++ k) v t) P)
  have ha := (PrefixClient_BumpAvg P recordClient k v t).trans
    (flatten_map_singleton (fun pre => Event.avg (pre ++ k) v t) P)
  have hh := (PrefixClient_BumpHistogram P recordClient k v t).trans
    (flatten_map_singleton (fun pre => Event.hist (pre ++ k) v t) P)
  exact ⟨hs, ha, hh, by rw [hs]; simp⟩

/-- Witness for C1: the scenario of the spec, prefix list
`["svc.", "env.prod."]`, key `"requests"`, value `3.0`. -/
theorem claim_C1_prefix_fanout_witness :
    (["svc.", "env.prod."] : List String) ≠ []
    ∧ (PrefixClient ["svc.", "env.prod."] recordClient).BumpSum "requests" (3.0 : Float) []
        = [Event.sum "svc.requests" (3.0 : Float) [],
           Event.sum "env.prod.requests" (3.0 : Float) []] :=
  ⟨by decide,
   ((claim_C1_prefix_fanout ["svc.", "env.prod."] (by decide) "requests"
      (3.0 : Float) []).1).trans (by rfl)⟩

/-- Claim C2: the free functions on an absent client do nothing
(`BumpTime` returning the shared `NoOpEnd`), and on a present client
forward the call unchanged (`BumpTime` returning the client result). -/
theorem claim_C2_nil_tolerant_helpers (k : String) (v : Float) (t : List String) :
    (BumpAvg (none : Option (Client ε)) k v t = []
      ∧ BumpSum (none : Option (Client ε)) k v t = []
      ∧ BumpHistogram (none : Option (Client ε)) k v t = []
      ∧ BumpTime (none : Option (Client ε)) k t = ([], some NoOpEnd))
    ∧ ∀ c : Client ε,
        BumpAvg (some c) k v t = c.BumpAvg k v t
        ∧ BumpSum (some c) k v t = c.BumpSum k v t
        ∧ BumpHistogram (some c) k v t = c.BumpHistogram k v t
        ∧ BumpTime (some c) k t = c.BumpTime k t :=
  ⟨⟨rfl, rfl, rfl, rfl⟩, fun _ => ⟨rfl, rfl, rfl, rfl⟩⟩

/-- Claim C3: each `HookClient` operation invokes its hook with the
exact call arguments when the hook is set (returning its result for
`BumpTime`), and otherwise does nothing, `BumpTime` returning the shared
`NoOpEnd`. -/
theorem claim_C3_hook_contract (c : HookClient ε) (k : String) (v : Float)
    (t : List String) :
    (∀ f, c.BumpAvgHook = some f → c.BumpAvg k v t = f k v t)
    ∧ (c.BumpAvgHook = none → c.BumpAvg k v t = [])
    ∧ (∀ f, c.BumpSumHook = some f → c.BumpSum k v t = f k v t)
    ∧ (c.BumpSumHook = none → c.BumpSum k v t = [])
    ∧ (∀ f, c.BumpHistogramHook = some f → c.BumpHistogram k v t = f k v t)
    ∧ (c.BumpHistogramHook = none → c.BumpHistogram k v t = [])
    ∧ (∀ f, c.BumpTimeHook = some f → c.BumpTime k t = f k t)
    ∧ (c.BumpTimeHook = none → c.BumpTime k t = ([], some NoOpEnd)) := by
  obtain ⟨ha, hs, hh, ht⟩ := c
  refine ⟨fun f hf => ?_, fun hf => ?_, fun f hf => ?_, fun hf => ?_,
    fun f hf => ?_, fun hf => ?_, fun f hf => ?_, fun hf => ?_⟩ <;>
    (cases hf;
     simp [HookClient.BumpAvg, HookClient.BumpSum, HookClient.BumpHistogram,
       HookClient.BumpTime])

/-- Witness for C3: the `sampleHooks` client has the avg and time hooks
set and the sum hook absent; its calls behave accordingly. -/
theorem claim_C3_hook_contract_witness :
    sampleHooks.BumpAvg "latency" (42.5 : Float) ["region:us"]
        = [Event.avg "latency" (42.5 : Float) ["region:us"]]
    ∧ sampleHooks.BumpSum "latency" (42.5 : Float) ["region:us"] = []
    ∧ sampleHooks.BumpTime "latency" ["region:us"]
        = ([Event.time "latency" ["region:us"]],
           some ⟨some [Event.ended "latency"]⟩) :=
  ⟨((claim_C3_hook_contract sampleHooks "latency" (42.5 : Float)
      ["region:us"]).1 _ rfl).trans (by rfl),
   (claim_C3_hook_contract sampleHooks "latency" (42.5 : Float)
      ["region:us"]).2.2.2.1 rfl,
   ((claim_C3_hook_contract sampleHooks "latency" (42.5 : Float)
      ["region:us"]).2.2.2.2.2.2.1 _ rfl).trans (by rfl)⟩

/-- Claim C4: a `BumpTime` call through the prefixing decorator calls
`BumpTime` on the wrapped client once per prefix in list order with key
`pre ++ k` and tags `t`, and the returned handles are collected in call
order into a single multi-timer-handle that is returned to the caller
(shown for an arbitrary wrapped client, and against the recording
client, where each wrapped call is one `time` event and one handle). -/
theorem claim_C4_prefix_BumpTime (P : List String) (c : Client ε) (k : String)
    (t : List String) :
    (PrefixClient P c).BumpTime k t
      = ((P.map fun pre => (c.BumpTime (pre ++ k) t).1).flatten,
         some (multiEnder.toEnder (P.map fun pre => (c.BumpTime (pre ++ k) t).2)))
    ∧ (PrefixClient P recordClient).BumpTime k t
      = (P.map fun pre => Event.time (pre ++ k) t,
         some (multiEnder.toEnder (P.map fun pre =>
           some (⟨some [Event.ended (pre ++ k)]⟩ : Ender Event)))) := by
  refine ⟨PrefixClient_BumpTime P c k t, ?_⟩
  have h1 := flatten_map_singleton (fun pre => Event.time (pre ++ k) t) P
  calc (PrefixClient P recordClient).BumpTime k t
      = ((P.map fun pre => [Event.time (pre ++ k) t]).flatten,
         some (multiEnder.toEnder (P.map fun pre =>
           some (⟨some [Event.ended (pre ++ k)]⟩ : Ender Event))))
        := PrefixClient_BumpTime P recordClient k t
    _ = _ := by rw [h1]

/-- Claim C5: finishing a multi-timer-handle wrapping `N` timer handles
invokes the finish of each wrapped handle exactly once, in the original
collection order: the resulting trace is the concatenation of the
per-handle finish traces, in order. -/
theorem claim_C5_multiEnder_End_order (hs : List (List ε)) :
    multiEnder.End (hs.map fun tr => some (⟨some tr⟩ : Ender ε)) = some hs.flatten :=
  multiEnder_End_traces hs

/-- Claim C6: with an empty prefix list, `BumpAvg`, `BumpSum` and
`BumpHistogram` perform zero calls on the wrapped client, and `BumpTime`
performs zero calls and returns a multi-timer-handle wrapping zero
handles, whose finish is a no-op. -/
theorem claim_C6_empty_prefix_list (c : Client ε) (k : String) (v : Float)
    (t : List String) :
    (PrefixClient [] c).BumpAvg k v t = []
    ∧ (PrefixClient [] c).BumpSum k v t = []
    ∧ (PrefixClient [] c).BumpHistogram k v t = []
    ∧ (PrefixClient [] c).BumpTime k t = ([], some (multiEnder.toEnder ([] : multiEnder ε)))
    ∧ (multiEnder.toEnder ([] : multiEnder ε)).End = some [] :=
  ⟨rfl, rfl, rfl, rfl, rfl⟩

/-- Claim C7: the finish operation of the shared no-op handle `NoOpEnd`
can be called any number of times: every one of `n` successive calls
performs no effect and never fails. -/
theorem claim_C7_NoOpEnd_any_number (n : Nat) :
    (NoOpEnd : Ender ε).End = some []
    ∧ multiEnder.End (List.replicate n (some (NoOpEnd : Ender ε))) = some [] := by
  refine ⟨rfl, ?_⟩
  induction n with
  | zero => rfl
  | succ m ih =>
      simp [NoOpEnd] at ih
      simp [List.replicate_succ, multiEnder.End, endCall, NoOpEnd, ih]

/-- Counterexample to C8 as stated: with `P1 = ["a"]`, `P2 = ["b"]` and
key `"k"`, the composed decorators bump the wrapped client with key
`"bak"` (the inner prefix ends up leftmost), not `"a" ++ ("b" ++ "k")
= "abk"` as the claim asserts. -/
theorem claim_C8_counterexample :
    ¬ ((PrefixClient ["a"] (PrefixClient ["b"] recordClient)).BumpSum "k" (1.0 : Float) []
        = [Event.sum ("a" ++ ("b" ++ "k")) (1.0 : Float) []]) :=
  fun h => absurd (congrArg (List.map Event.key) h) (by decide)

/-- Claim C8, amended: one bump call through
`PrefixClient P1 (PrefixClient P2 c)` produces exactly
`P1.length * P2.length` calls on `c`, ordered with the `P1` index
outermost, value and tags unchanged, with keys `P2[j] ++ (P1[i] ++ k)`:
the outer decorator prepends its prefix first, so the inner prefix
appears leftmost in the final key. -/
theorem claim_C8_compose_amended (P1 P2 : List String) (k : String) (v : Float)
    (t : List String) :
    (PrefixClient P1 (PrefixClient P2 recordClient)).BumpSum k v t
      = (P1.map fun p1 => P2.map fun p2 => Event.sum (p2 ++ (p1 ++ k)) v t).flatten
    ∧ ((PrefixClient P1 (PrefixClient P2 recordClient)).BumpSum k v t).length
      = P1.length * P2.length := by
  have hin : ∀ p1 : String, (PrefixClient P2 recordClient).BumpSum (p1 ++ k) v t
      = P2.map fun p2 => Event.sum (p2 ++ (p1 ++ k)) v t := fun p1 =>
    (PrefixClient_BumpSum P2 recordClient (p1 ++ k) v t).trans
      (flatten_map_singleton (fun p2 => Event.sum (p2 ++ (p1 ++ k)) v t) P2)
  have htrace : (PrefixClient P1 (PrefixClient P2 recordClient)).BumpSum k v t
      = (P1.map fun p1 => P2.map fun p2 => Event.sum (p2 ++ (p1 ++ k)) v t).flatten := by
    rw [PrefixClient_BumpSum]
    simp only [hin]
  have hlen : ∀ Q : List String,
      ((Q.map fun p1 => P2.map fun p2 => Event.sum (p2 ++ (p1 ++ k)) v t).flatten).length
        = Q.length * P2.length := by
    intro Q
    induction Q with
    | nil => simp
    | cons q qs ih => simp [ih]; ring
  exact ⟨htrace, htrace ▸ hlen P1⟩

/-- Claim C9: no operation of the prefixing decorator changes the
decorator itself: each method returns the receiver with the same prefix
list and wrapped client (the loop bodies only read the fields). -/
theorem claim_C9_decorator_state_unchanged (p : prefixClient ε) (k : String)
    (v : Float) (t : List String) :
    (p.BumpAvgM k v t).2 = p ∧ (p.BumpSumM k v t).2 = p
    ∧ (p.BumpHistogramM k v t).2 = p ∧ (p.BumpTimeM k t).2 = p :=
  ⟨rfl, rfl, rfl, rfl⟩

/-- Claim C10: the no-op handle is substituted only in the absent case:
for a present client whose `BumpTime` returns the nil handle, the free
`BumpTime` returns that nil handle unmodified, and `HookClient.BumpTime`
with a set hook likewise returns the hook result even when the handle
is nil; the nil handle is not the shared `NoOpEnd`. -/
theorem claim_C10_nil_handle_passthrough :
    BumpTime (some nilTimeHooks.toClient) "k" ["t"] = ([Event.time "k" ["t"]], none)
    ∧ nilTimeHooks.BumpTime "k" ["t"] = ([Event.time "k" ["t"]], none)
    ∧ (none : EnderI Event) ≠ some (NoOpEnd : Ender Event) :=
  ⟨rfl, rfl, fun h => Option.noConfusion h⟩
